import Mathlib

/-!
Shallow embedding of StudyPal (src/studypal.py), a flashcard manager with
SM-2 style spaced-repetition scheduling. Dates carry no time-of-day meaning
anywhere in the scheduling logic, so a calendar date is modelled as an
integer day number; the floating point ease factor is modelled as a rational.
-/

/-- A persisted date string as the program sees it: either a string that
strptime with format YYYY-MM-DD parses to some calendar day (counted in days
from a fixed epoch), or a malformed string on which strptime raises
ValueError. The tag distinguishes distinct malformed strings. -/
inductive DateStr where
  | parsed (day : ℤ) : DateStr
  | malformed (tag : ℕ) : DateStr
deriving DecidableEq

/-- The Card dataclass of studypal.py. -/
structure Card where
  id : ℤ
  question : String
  answer : String
  repetitions : ℤ
  interval : ℤ
  ease : ℚ
  due : DateStr
  created : DateStr
  last_review : Option DateStr
deriving DecidableEq

/-- Card.is_due: true when the due string fails to parse (fail-open), else
true exactly when the parsed due day is on or before today. -/
def Card.is_due (c : Card) (today : ℤ) : Bool :=
  match c.due with
  | DateStr.malformed _ => true
  | DateStr.parsed d => decide (d ≤ today)

/-- The Deck dataclass of studypal.py: id allocator plus ordered cards. -/
structure Deck where
  next_id : ℤ
  cards : List Card
deriving DecidableEq

/-- Deck.due_cards: the cards that are due today, in deck order. -/
def Deck.due_cards (deck : Deck) (today : ℤ) : List Card :=
  deck.cards.filter (fun c => c.is_due today)

/-- The characters stripped by str.strip with no argument (ASCII range). -/
def isPySpace (c : Char) : Bool :=
  c == ' ' || c == '\t' || c == '\n' || c == '\r' || c == '\x0b' || c == '\x0c'

/-- str.strip: drop leading and trailing whitespace. -/
def pyStrip (s : String) : String :=
  String.mk (((s.data.dropWhile isPySpace).reverse.dropWhile isPySpace).reverse)

/-- Deck.add. The Card class captures datetime.now at class definition time
as the default for due and created; that captured day is the moduleDate
parameter. Returns the updated deck together with the created card. -/
def Deck.add (moduleDate : ℤ) (deck : Deck) (q a : String) : Deck × Card :=
  let c : Card :=
    { id := deck.next_id
      question := pyStrip q
      answer := pyStrip a
      repetitions := 0
      interval := 0
      ease := 5/2
      due := DateStr.parsed moduleDate
      created := DateStr.parsed moduleDate
      last_review := none }
  ({ next_id := deck.next_id + 1, cards := deck.cards ++ [c] }, c)

/-- Quality clamping at the top of sm2_schedule: max(0, min(5, quality)). -/
def clampQuality (quality : ℤ) : ℤ := max 0 (min 5 quality)

/-- The additive ease adjustment of sm2_schedule for a clamped quality q:
0.1 - (5 - q) * (0.08 + (5 - q) * 0.02). -/
def easeDelta (q : ℤ) : ℚ :=
  1/10 - (5 - (q : ℚ)) * (8/100 + (5 - (q : ℚ)) * (2/100))

/-- The round builtin applied to interval * ease: round to the nearest
integer, ties to the even integer. -/
def roundHalfEven (x : ℚ) : ℤ :=
  if x - ⌊x⌋ < 1/2 then ⌊x⌋
  else if 1/2 < x - ⌊x⌋ then ⌊x⌋ + 1
  else if ⌊x⌋ % 2 = 0 then ⌊x⌋ else ⌊x⌋ + 1

/-- sm2_schedule: clamp the quality, update the ease with a 1.3 floor,
branch on failure and on the repetition count for the new interval and
repetition count, then set due to today plus the new interval and stamp
last_review with today. -/
def sm2_schedule (card : Card) (quality : ℤ) (today : ℤ) : Card :=
  let q := clampQuality quality
  let ease := max (13/10 : ℚ) (card.ease + easeDelta q)
  let ri : ℤ × ℤ :=
    if q < 3 then (0, 1)
    else if card.repetitions = 0 then (1, 1)
    else if card.repetitions = 1 then (2, 6)
    else (card.repetitions + 1, roundHalfEven ((card.interval : ℚ) * ease))
  { card with
    ease := ease
    repetitions := ri.1
    interval := ri.2
    due := DateStr.parsed (today + ri.2)
    last_review := some (DateStr.parsed today) }

/-- A raw persisted card record as found in the JSON file: id, question and
answer must be present for Card construction to succeed; every other field
may be absent, in which case the dataclass default applies on load. -/
structure RawCard where
  id : ℤ
  question : String
  answer : String
  repetitions : Option ℤ
  interval : Option ℤ
  ease : Option ℚ
  due : Option DateStr
  created : Option DateStr
  last_review : Option (Option DateStr)
deriving DecidableEq

/-- A raw persisted deck record: both top-level keys may be absent. -/
structure RawDeck where
  next_id : Option ℤ
  cards : Option (List RawCard)
deriving DecidableEq

/-- Card construction from a raw record, Card applied to the keyword
arguments of the record: absent fields take the dataclass defaults
(repetitions 0, interval 0, ease 2.5, due and created the day captured at
class definition time, last_review None). -/
def loadCard (moduleDate : ℤ) (r : RawCard) : Card :=
  { id := r.id
    question := r.question
    answer := r.answer
    repetitions := r.repetitions.getD 0
    interval := r.interval.getD 0
    ease := r.ease.getD (5/2)
    due := r.due.getD (DateStr.parsed moduleDate)
    created := r.created.getD (DateStr.parsed moduleDate)
    last_review := r.last_review.getD none }

/-- Deck.load on an existing file: cards default to the empty list, next_id
defaults to the number of loaded cards plus one. -/
def Deck.load (moduleDate : ℤ) (raw : RawDeck) : Deck :=
  let cards := (raw.cards.getD []).map (loadCard moduleDate)
  { next_id := raw.next_id.getD ((cards.length : ℤ) + 1), cards := cards }

/-- asdict on one card: every field is written out. -/
def saveCard (c : Card) : RawCard :=
  { id := c.id
    question := c.question
    answer := c.answer
    repetitions := some c.repetitions
    interval := some c.interval
    ease := some c.ease
    due := some c.due
    created := some c.created
    last_review := some c.last_review }

/-- Deck.save: writes next_id and all cards in order, every field present. -/
def Deck.save (deck : Deck) : RawDeck :=
  { next_id := some deck.next_id, cards := some (deck.cards.map saveCard) }

/-- A raw card record with every optional field present. -/
def RawCard.Complete (r : RawCard) : Prop :=
  r.repetitions.isSome ∧ r.interval.isSome ∧ r.ease.isSome ∧
    r.due.isSome ∧ r.created.isSome ∧ r.last_review.isSome

instance : DecidablePred RawCard.Complete := fun r => by
  unfold RawCard.Complete; infer_instance

/-- A well-formed raw card record: complete, and the stored scheduling state
satisfies the documented Card invariants. -/
def RawCard.WellFormed (r : RawCard) : Prop :=
  r.Complete ∧ 13/10 ≤ r.ease.getD (5/2) ∧ 0 ≤ r.repetitions.getD 0

instance : DecidablePred RawCard.WellFormed := fun r => by
  unfold RawCard.WellFormed; infer_instance

/-- A well-formed persisted deck record: both keys present and every card
record well-formed. -/
def RawDeck.WellFormed (raw : RawDeck) : Prop :=
  raw.next_id.isSome ∧ raw.cards.isSome ∧
    ∀ r ∈ raw.cards.getD [], r.WellFormed

instance : DecidablePred RawDeck.WellFormed := fun raw => by
  unfold RawDeck.WellFormed; infer_instance

/-- The documented Card state invariant: ease at least 1.3 and a
non-negative repetition count. -/
def Card.Inv (c : Card) : Prop := 13/10 ≤ c.ease ∧ 0 ≤ c.repetitions

instance : DecidablePred Card.Inv := fun c => by
  unfold Card.Inv; infer_instance

/-- cmd_edit on a loaded deck, reduced to its deck transformation: find the
first card with the given id; when absent, report not found and leave the
deck alone; when present, overwrite question and answer with the supplied
values exactly when each is supplied and non-empty. The Bool is the found
outcome. -/
def applyEdit (q a : Option String) (c : Card) : Card :=
  let c1 := match q with
    | some s => if s.isEmpty then c else { c with question := s }
    | none => c
  match a with
  | some s => if s.isEmpty then c1 else { c1 with answer := s }
  | none => c1

def editCards (cid : ℤ) (q a : Option String) : List Card → List Card
  | [] => []
  | c :: rest =>
      if c.id = cid then applyEdit q a c :: rest
      else c :: editCards cid q a rest

def cmd_edit (deck : Deck) (cid : ℤ) (q a : Option String) : Deck × Bool :=
  if deck.cards.any (fun c => decide (c.id = cid)) then
    ({ deck with cards := editCards cid q a deck.cards }, true)
  else (deck, false)

/-- cmd_delete reduced to its deck transformation: keep the cards whose id
differs, report found exactly when the length shrank. -/
def cmd_delete (deck : Deck) (cid : ℤ) : Deck × Bool :=
  let remaining := deck.cards.filter (fun c => decide (c.id ≠ cid))
  ({ deck with cards := remaining },
    decide (remaining.length ≠ deck.cards.length))

/-! Projection lemmas for sm2_schedule. -/

theorem sm2_ease_eq (card : Card) (quality today : ℤ) :
    (sm2_schedule card quality today).ease
      = max (13/10) (card.ease + easeDelta (clampQuality quality)) := rfl

theorem sm2_repetitions_eq (card : Card) (quality today : ℤ) :
    (sm2_schedule card quality today).repetitions
      = if clampQuality quality < 3 then 0
        else if card.repetitions = 0 then 1
        else if card.repetitions = 1 then 2
        else card.repetitions + 1 := by
  unfold sm2_schedule
  dsimp only
  split_ifs <;> rfl

theorem sm2_interval_eq (card : Card) (quality today : ℤ) :
    (sm2_schedule card quality today).interval
      = if clampQuality quality < 3 then 1
        else if card.repetitions = 0 then 1
        else if card.repetitions = 1 then 6
        else roundHalfEven ((card.interval : ℚ)
              * max (13/10) (card.ease + easeDelta (clampQuality quality))) := by
  unfold sm2_schedule
  dsimp only
  split_ifs <;> rfl

theorem sm2_due_eq (card : Card) (quality today : ℤ) :
    (sm2_schedule card quality today).due
      = DateStr.parsed (today + (sm2_schedule card quality today).interval) := rfl

theorem sm2_last_review_eq (card : Card) (quality today : ℤ) :
    (sm2_schedule card quality today).last_review
      = some (DateStr.parsed today) := rfl

theorem clampQuality_nonneg (q : ℤ) : 0 ≤ clampQuality q := le_max_left 0 _

theorem clampQuality_le_five (q : ℤ) : clampQuality q ≤ 5 := by
  unfold clampQuality
  rcases le_total 5 q with h | h <;> simp [min_def, h]

theorem clampQuality_mono {q1 q2 : ℤ} (h : q1 ≤ q2) :
    clampQuality q1 ≤ clampQuality q2 :=
  max_le_max le_rfl (min_le_min le_rfl h)

theorem easeDelta_mono {a b : ℤ} (h0 : 0 ≤ a) (hab : a ≤ b) (h5 : b ≤ 5) :
    easeDelta a ≤ easeDelta b := by
  unfold easeDelta
  have hx : (a : ℚ) ≤ (b : ℚ) := by exact_mod_cast hab
  have hy : (b : ℚ) ≤ 5 := by exact_mod_cast h5
  have hz : (0 : ℚ) ≤ (a : ℚ) := by exact_mod_cast h0
  nlinarith [mul_nonneg (sub_nonneg.mpr hx) (sub_nonneg.mpr hy)]

/-- A sample card used to instantiate universally quantified theorems. -/
def sampleCard : Card :=
  { id := 1
    question := "q"
    answer := "a"
    repetitions := 0
    interval := 0
    ease := 5/2
    due := DateStr.parsed 0
    created := DateStr.parsed 0
    last_review := none }

/-- C1: sm2_schedule clamps the quality into the range 0..5, sets the new
ease to max(1.3, ease + (0.1 - (5 - qc) * (0.08 + (5 - qc) * 0.02))) for the
clamped quality qc, and hence the returned ease is at least 1.3 and is
monotonically non-decreasing in the quality argument. -/
theorem sm2_ease_formula_floor_mono (card : Card) (quality q1 q2 today : ℤ)
    (h : q1 ≤ q2) :
    (sm2_schedule card quality today).ease
        = max (13/10) (card.ease + easeDelta (clampQuality quality))
    ∧ (13/10 : ℚ) ≤ (sm2_schedule card quality today).ease
    ∧ (sm2_schedule card q1 today).ease ≤ (sm2_schedule card q2 today).ease := by
  refine ⟨rfl, le_max_left _ _, ?_⟩
  rw [sm2_ease_eq, sm2_ease_eq]
  exact max_le_max le_rfl
    (add_le_add_left
      (easeDelta_mono (clampQuality_nonneg q1) (clampQuality_mono h)
        (clampQuality_le_five q2)) card.ease)

theorem sm2_ease_formula_floor_mono_witness :
    (1 : ℤ) ≤ 2
    ∧ ((sm2_schedule sampleCard 3 0).ease
          = max (13/10) (sampleCard.ease + easeDelta (clampQuality 3))
        ∧ (13/10 : ℚ) ≤ (sm2_schedule sampleCard 3 0).ease
        ∧ (sm2_schedule sampleCard 1 0).ease ≤ (sm2_schedule sampleCard 2 0).ease) :=
  ⟨by decide, sm2_ease_formula_floor_mono sampleCard 3 1 2 0 (by decide)⟩

/-- C2: on a failed recall (clamped quality below 3), sm2_schedule resets
repetitions to 0, sets the interval to 1, and makes the card due tomorrow,
regardless of the prior state. -/
theorem sm2_lapse_resets (card : Card) (quality today : ℤ)
    (h : clampQuality quality < 3) :
    (sm2_schedule card quality today).repetitions = 0
    ∧ (sm2_schedule card quality today).interval = 1
    ∧ (sm2_schedule card quality today).due = DateStr.parsed (today + 1) := by
  refine ⟨?_, ?_, ?_⟩
  · rw [sm2_repetitions_eq, if_pos h]
  · rw [sm2_interval_eq, if_pos h]
  · rw [sm2_due_eq, sm2_interval_eq, if_pos h]

theorem sm2_lapse_resets_witness :
    clampQuality 0 < 3
    ∧ ((sm2_schedule sampleCard 0 5).repetitions = 0
        ∧ (sm2_schedule sampleCard 0 5).interval = 1
        ∧ (sm2_schedule sampleCard 0 5).due = DateStr.parsed (5 + 1)) :=
  ⟨by decide, sm2_lapse_resets sampleCard 0 5 (by decide)⟩

theorem abs_roundHalfEven_sub_le (x : ℚ) :
    |((roundHalfEven x : ℤ) : ℚ) - x| ≤ 1/2 := by
  have h1 : ((⌊x⌋ : ℤ) : ℚ) ≤ x := Int.floor_le x
  have h2 : x < ((⌊x⌋ : ℤ) : ℚ) + 1 := Int.lt_floor_add_one x
  unfold roundHalfEven
  split_ifs with ha hb hc
  · rw [abs_le]; constructor <;> linarith
  · rw [abs_le]; push_cast; constructor <;> linarith
  · rw [abs_le]; constructor <;> linarith
  · rw [abs_le]; push_cast; constructor <;> linarith

/-- A card in the exponential-growth regime, used to instantiate
universally quantified theorems. -/
def matureCard : Card :=
  { id := 2
    question := "q"
    answer := "a"
    repetitions := 3
    interval := 10
    ease := 5/2
    due := DateStr.parsed 0
    created := DateStr.parsed 0
    last_review := some (DateStr.parsed 0) }

/-- C3: on a successful recall (clamped quality at least 3), sm2_schedule
maps prior repetitions 0 to interval 1 and repetitions 1, prior repetitions
1 to interval 6 and repetitions 2 independently of the ease, and prior
repetitions at least 2 to interval round(interval * new ease) — the nearest
integer under the fixed half-to-even tie rule, hence within half a day of
the exact product — with repetitions incremented; in every case the card
becomes due after exactly the new interval and last_review is stamped with
today. -/
theorem sm2_success_branches (card : Card) (quality today : ℤ)
    (h : 3 ≤ clampQuality quality) :
    (card.repetitions = 0 →
      (sm2_schedule card quality today).interval = 1
      ∧ (sm2_schedule card quality today).repetitions = 1)
    ∧ (card.repetitions = 1 →
      (sm2_schedule card quality today).interval = 6
      ∧ (sm2_schedule card quality today).repetitions = 2)
    ∧ (2 ≤ card.repetitions →
      (sm2_schedule card quality today).interval
          = roundHalfEven ((card.interval : ℚ)
              * (sm2_schedule card quality today).ease)
      ∧ (sm2_schedule card quality today).repetitions = card.repetitions + 1
      ∧ |(((sm2_schedule card quality today).interval : ℤ) : ℚ)
            - (card.interval : ℚ) * (sm2_schedule card quality today).ease|
          ≤ 1/2)
    ∧ (sm2_schedule card quality today).due
        = DateStr.parsed (today + (sm2_schedule card quality today).interval)
    ∧ (sm2_schedule card quality today).last_review
        = some (DateStr.parsed today) := by
  have hq : ¬ clampQuality quality < 3 := not_lt.mpr h
  refine ⟨?_, ?_, ?_, sm2_due_eq card quality today,
    sm2_last_review_eq card quality today⟩
  · intro hr
    rw [sm2_interval_eq, sm2_repetitions_eq, if_neg hq, if_neg hq,
      if_pos hr, if_pos hr]
    exact ⟨rfl, rfl⟩
  · intro hr
    have hr0 : ¬ card.repetitions = 0 := by omega
    rw [sm2_interval_eq, sm2_repetitions_eq, if_neg hq, if_neg hq,
      if_neg hr0, if_neg hr0, if_pos hr, if_pos hr]
    exact ⟨rfl, rfl⟩
  · intro hr
    have hr0 : ¬ card.repetitions = 0 := by omega
    have hr1 : ¬ card.repetitions = 1 := by omega
    have hint : (sm2_schedule card quality today).interval
        = roundHalfEven ((card.interval : ℚ)
            * (sm2_schedule card quality today).ease) := by
      rw [sm2_interval_eq, if_neg hq, if_neg hr0, if_neg hr1, sm2_ease_eq]
    refine ⟨hint, ?_, ?_⟩
    · rw [sm2_repetitions_eq, if_neg hq, if_neg hr0, if_neg hr1]
    · rw [hint]
      exact abs_roundHalfEven_sub_le _

theorem sm2_success_branches_witness :
    3 ≤ clampQuality 4
    ∧ ((matureCard.repetitions = 0 →
        (sm2_schedule matureCard 4 7).interval = 1
        ∧ (sm2_schedule matureCard 4 7).repetitions = 1)
      ∧ (matureCard.repetitions = 1 →
        (sm2_schedule matureCard 4 7).interval = 6
        ∧ (sm2_schedule matureCard 4 7).repetitions = 2)
      ∧ (2 ≤ matureCard.repetitions →
        (sm2_schedule matureCard 4 7).interval
            = roundHalfEven ((matureCard.interval : ℚ)
                * (sm2_schedule matureCard 4 7).ease)
        ∧ (sm2_schedule matureCard 4 7).repetitions = matureCard.repetitions + 1
        ∧ |(((sm2_schedule matureCard 4 7).interval : ℤ) : ℚ)
              - (matureCard.interval : ℚ) * (sm2_schedule matureCard 4 7).ease|
            ≤ 1/2)
      ∧ (sm2_schedule matureCard 4 7).due
          = DateStr.parsed (7 + (sm2_schedule matureCard 4 7).interval)
      ∧ (sm2_schedule matureCard 4 7).last_review
          = some (DateStr.parsed 7)) :=
  ⟨by decide, sm2_success_branches matureCard 4 7 (by decide)⟩

/-- A well-formed raw record of a card, used to instantiate universally
quantified theorems. -/
def sampleRawCard : RawCard :=
  { id := 1
    question := "q"
    answer := "a"
    repetitions := some 0
    interval := some 0
    ease := some (5/2)
    due := some (DateStr.parsed 0)
    created := some (DateStr.parsed 0)
    last_review := some none }

/-- A well-formed raw deck record holding one card. -/
def sampleRawDeck : RawDeck :=
  { next_id := some 2, cards := some [sampleRawCard] }

/-- C4: every reachable card state satisfies ease at least 1.3 and a
non-negative repetition count: Deck.add creates cards with ease 2.5 and
repetitions 0, sm2_schedule preserves the invariant from any card
satisfying it, and Deck.load of a well-formed persisted deck yields only
cards satisfying it. -/
theorem studypal_card_invariant (md : ℤ) (deck : Deck) (q a : String)
    (card : Card) (quality today : ℤ) (raw : RawDeck)
    (hc : card.Inv) (hw : raw.WellFormed) :
    ((Deck.add md deck q a).2.ease = 5/2
      ∧ (Deck.add md deck q a).2.repetitions = 0)
    ∧ (sm2_schedule card quality today).Inv
    ∧ ∀ c ∈ (Deck.load md raw).cards, c.Inv := by
  refine ⟨⟨rfl, rfl⟩, ⟨le_max_left _ _, ?_⟩, ?_⟩
  · rw [sm2_repetitions_eq]
    rcases hc with ⟨-, hr⟩
    split_ifs <;> omega
  · intro c hmem
    rcases hw with ⟨-, -, hall⟩
    rcases List.mem_map.mp hmem with ⟨r, hr, rfl⟩
    rcases hall r hr with ⟨-, he, hrep⟩
    exact ⟨he, hrep⟩

theorem studypal_card_invariant_witness :
    sampleCard.Inv ∧ sampleRawDeck.WellFormed
    ∧ (((Deck.add 0 ⟨1, []⟩ "x" "y").2.ease = 5/2
        ∧ (Deck.add 0 ⟨1, []⟩ "x" "y").2.repetitions = 0)
      ∧ (sm2_schedule sampleCard 4 0).Inv
      ∧ ∀ c ∈ (Deck.load 0 sampleRawDeck).cards, c.Inv) :=
  ⟨by norm_num [Card.Inv, sampleCard],
    by norm_num [RawDeck.WellFormed, RawCard.WellFormed, RawCard.Complete,
      sampleRawDeck, sampleRawCard],
    studypal_card_invariant 0 ⟨1, []⟩ "x" "y" sampleCard 4 0 sampleRawDeck
      (by norm_num [Card.Inv, sampleCard])
      (by norm_num [RawDeck.WellFormed, RawCard.WellFormed, RawCard.Complete,
        sampleRawDeck, sampleRawCard])⟩

/-- A card whose stored due string is malformed, used to instantiate
universally quantified theorems. -/
def badDueCard : Card :=
  { id := 3
    question := "q"
    answer := "a"
    repetitions := 0
    interval := 0
    ease := 5/2
    due := DateStr.malformed 0
    created := DateStr.parsed 0
    last_review := none }

/-- C5: Card.is_due today holds exactly when the due string parses to a day
on or before today or fails to parse at all (fail-open), and consequently a
card of the deck whose due string is unparsable belongs to due_cards for
every today. -/
theorem is_due_fail_open (deck : Deck) (c : Card) (today : ℤ)
    (hmem : c ∈ deck.cards) :
    (c.is_due today = true ↔
      ((∃ d, c.due = DateStr.parsed d ∧ d ≤ today)
        ∨ ∃ t, c.due = DateStr.malformed t))
    ∧ ((∀ d, c.due ≠ DateStr.parsed d) → c ∈ deck.due_cards today) := by
  constructor
  · cases hdue : c.due with
    | parsed d => simp [Card.is_due, hdue]
    | malformed t => simp [Card.is_due, hdue]
  · intro hnp
    have hdue : c.is_due today = true := by
      cases hdue : c.due with
      | parsed d => exact absurd hdue (hnp d)
      | malformed t => simp [Card.is_due, hdue]
    exact List.mem_filter.mpr ⟨hmem, hdue⟩

theorem is_due_fail_open_witness :
    badDueCard ∈ (⟨4, [badDueCard]⟩ : Deck).cards
    ∧ ((badDueCard.is_due 100 = true ↔
        ((∃ d, badDueCard.due = DateStr.parsed d ∧ d ≤ 100)
          ∨ ∃ t, badDueCard.due = DateStr.malformed t))
      ∧ ((∀ d, badDueCard.due ≠ DateStr.parsed d) →
          badDueCard ∈ (⟨4, [badDueCard]⟩ : Deck).due_cards 100)) :=
  ⟨List.Mem.head _,
    is_due_fail_open ⟨4, [badDueCard]⟩ badDueCard 100 (List.Mem.head _)⟩

theorem saveCard_loadCard (md : ℤ) (r : RawCard) (h : r.Complete) :
    saveCard (loadCard md r) = r := by
  obtain ⟨h1, h2, h3, h4, h5, h6⟩ := h
  obtain ⟨v1, hv1⟩ := Option.isSome_iff_exists.mp h1
  obtain ⟨v2, hv2⟩ := Option.isSome_iff_exists.mp h2
  obtain ⟨v3, hv3⟩ := Option.isSome_iff_exists.mp h3
  obtain ⟨v4, hv4⟩ := Option.isSome_iff_exists.mp h4
  obtain ⟨v5, hv5⟩ := Option.isSome_iff_exists.mp h5
  obtain ⟨v6, hv6⟩ := Option.isSome_iff_exists.mp h6
  cases r
  simp only at hv1 hv2 hv3 hv4 hv5 hv6
  subst hv1 hv2 hv3 hv4 hv5 hv6
  simp [saveCard, loadCard]

/-- C6: saving the deck obtained by loading any well-formed persisted deck
record writes back exactly the original record: next_id, every card field
and the card order are preserved. -/
theorem save_load_roundtrip (md : ℤ) (raw : RawDeck) (h : raw.WellFormed) :
    (Deck.load md raw).save = raw := by
  obtain ⟨hnid, hcards, hwf⟩ := h
  obtain ⟨n, hn⟩ := Option.isSome_iff_exists.mp hnid
  obtain ⟨cs, hcs⟩ := Option.isSome_iff_exists.mp hcards
  cases raw with
  | mk rawNextId rawCards =>
    simp only at hn hcs
    subst hn hcs
    simp only [Option.getD_some] at hwf
    unfold Deck.load Deck.save
    simp only [Option.getD_some, List.map_map]
    have hmap : cs.map (saveCard ∘ loadCard md) = cs.map id := by
      apply List.map_congr_left
      intro r hr
      exact saveCard_loadCard md r (hwf r hr).1
    rw [hmap, List.map_id]

theorem save_load_roundtrip_witness :
    sampleRawDeck.WellFormed ∧ (Deck.load 0 sampleRawDeck).save = sampleRawDeck :=
  ⟨by norm_num [RawDeck.WellFormed, RawCard.WellFormed, RawCard.Complete,
      sampleRawDeck, sampleRawCard],
    save_load_roundtrip 0 sampleRawDeck
      (by norm_num [RawDeck.WellFormed, RawCard.WellFormed, RawCard.Complete,
        sampleRawDeck, sampleRawCard])⟩

theorem pyStrip_ne_empty (s : String)
    (h : ∃ c ∈ s.data, isPySpace c = false) : pyStrip s ≠ "" := by
  intro he
  have hdata : ((s.data.dropWhile isPySpace).reverse.dropWhile
      isPySpace).reverse = [] := congrArg String.data he
  rw [List.reverse_eq_nil_iff, List.dropWhile_eq_nil_iff] at hdata
  obtain ⟨c, hc, hcf⟩ := h
  rcases (List.mem_append.mp
      (by rw [List.takeWhile_append_dropWhile]; exact hc) :
        c ∈ s.data.takeWhile isPySpace ∨ c ∈ s.data.dropWhile isPySpace)
    with hin | hin
  · exact absurd (List.mem_takeWhile_imp hin) (by simp [hcf])
  · exact absurd (hdata c (List.mem_reverse.mpr hin)) (by simp [hcf])

/-- C7 counterexample: adding a card whose question and answer are a single
space stores empty strings for both fields, so the stored fields are not
always non-empty text. -/
theorem add_blank_stores_empty :
    (Deck.add 0 ⟨1, []⟩ " " " ").2.question = ""
    ∧ (Deck.add 0 ⟨1, []⟩ " " " ").2.answer = "" := by
  exact ⟨by decide, by decide⟩

/-- C7 amended: Deck.add stores the inputs with leading and trailing
whitespace trimmed; no non-emptiness validation is performed, so the stored
fields are non-empty exactly as far as the inputs contain some
non-whitespace character. -/
theorem add_trims_question_answer (md : ℤ) (deck : Deck) (q a : String) :
    (Deck.add md deck q a).2.question = pyStrip q
    ∧ (Deck.add md deck q a).2.answer = pyStrip a
    ∧ ((∃ c ∈ q.data, isPySpace c = false) →
        (Deck.add md deck q a).2.question ≠ "")
    ∧ ((∃ c ∈ a.data, isPySpace c = false) →
        (Deck.add md deck q a).2.answer ≠ "") :=
  ⟨rfl, rfl, fun h => pyStrip_ne_empty q h, fun h => pyStrip_ne_empty a h⟩

theorem add_trims_question_answer_witness :
    (Deck.add 0 ⟨1, []⟩ " x " "y").2.question = pyStrip " x "
    ∧ (Deck.add 0 ⟨1, []⟩ " x " "y").2.answer = pyStrip "y"
    ∧ ((∃ c ∈ " x ".data, isPySpace c = false) →
        (Deck.add 0 ⟨1, []⟩ " x " "y").2.question ≠ "")
    ∧ ((∃ c ∈ "y".data, isPySpace c = false) →
        (Deck.add 0 ⟨1, []⟩ " x " "y").2.answer ≠ "") :=
  add_trims_question_answer 0 ⟨1, []⟩ " x " "y"

theorem applyEdit_frame (q a : Option String) (c : Card) :
    (applyEdit q a c).id = c.id
    ∧ (applyEdit q a c).repetitions = c.repetitions
    ∧ (applyEdit q a c).interval = c.interval
    ∧ (applyEdit q a c).ease = c.ease
    ∧ (applyEdit q a c).due = c.due
    ∧ (applyEdit q a c).created = c.created
    ∧ (applyEdit q a c).last_review = c.last_review
    ∧ ((applyEdit q a c).question = c.question
        ∨ ∃ s, q = some s ∧ s ≠ "" ∧ (applyEdit q a c).question = s)
    ∧ ((applyEdit q a c).answer = c.answer
        ∨ ∃ s, a = some s ∧ s ≠ "" ∧ (applyEdit q a c).answer = s) := by
  unfold applyEdit
  rcases q with _ | s1 <;> rcases a with _ | s2 <;> dsimp only <;>
    (try split_ifs) <;>
    simp_all [String.isEmpty_iff]

theorem editCards_length (cid : ℤ) (q a : Option String) (l : List Card) :
    (editCards cid q a l).length = l.length := by
  induction l with
  | nil => rfl
  | cons c rest ih =>
    unfold editCards
    split_ifs <;> simp [ih]

theorem editCards_getElem? (cid : ℤ) (q a : Option String) (l : List Card)
    (i : ℕ) :
    (editCards cid q a l)[i]? = l[i]?
    ∨ ∃ c, l[i]? = some c ∧ c.id = cid
        ∧ (editCards cid q a l)[i]? = some (applyEdit q a c) := by
  induction l generalizing i with
  | nil => left; rfl
  | cons c rest ih =>
    unfold editCards
    by_cases hid : c.id = cid
    · rw [if_pos hid]
      cases i with
      | zero => right; exact ⟨c, by simp, hid, by simp⟩
      | succ n => left; simp
    · rw [if_neg hid]
      cases i with
      | zero => left; simp
      | succ n => simpa using ih n

theorem cmd_edit_not_found (deck : Deck) (cid : ℤ) (q a : Option String)
    (hall : ∀ x ∈ deck.cards, x.id ≠ cid) :
    cmd_edit deck cid q a = (deck, false) := by
  unfold cmd_edit
  have hany : deck.cards.any (fun x => decide (x.id = cid)) = false := by
    rw [List.any_eq_false]
    intro x hx
    simpa using hall x hx
  rw [hany]
  simp

/-- C8: editing by id leaves next_id and the card count unchanged; when the
id is absent the deck is returned untouched with a not-found outcome; and at
every position the card keeps its id and all scheduling fields, is wholly
unchanged unless its id matches, and its question and answer are either
unchanged or overwritten with the supplied non-empty new value. -/
theorem edit_frame (deck : Deck) (cid : ℤ) (q a : Option String) (i : ℕ)
    (c c2 : Card) (hc : deck.cards[i]? = some c)
    (hc2 : (cmd_edit deck cid q a).1.cards[i]? = some c2) :
    (cmd_edit deck cid q a).1.next_id = deck.next_id
    ∧ (cmd_edit deck cid q a).1.cards.length = deck.cards.length
    ∧ ((∀ x ∈ deck.cards, x.id ≠ cid) → cmd_edit deck cid q a = (deck, false))
    ∧ c2.id = c.id ∧ c2.repetitions = c.repetitions
    ∧ c2.interval = c.interval ∧ c2.ease = c.ease ∧ c2.due = c.due
    ∧ c2.created = c.created ∧ c2.last_review = c.last_review
    ∧ (c.id ≠ cid → c2 = c)
    ∧ (c2.question = c.question ∨ ∃ s, q = some s ∧ s ≠ "" ∧ c2.question = s)
    ∧ (c2.answer = c.answer ∨ ∃ s, a = some s ∧ s ≠ "" ∧ c2.answer = s) := by
  have hframe : c2 = c ∨ (c.id = cid ∧ c2 = applyEdit q a c) := by
    unfold cmd_edit at hc2
    by_cases hany : deck.cards.any (fun x => decide (x.id = cid)) = true
    · rw [if_pos hany] at hc2
      dsimp only at hc2
      rcases editCards_getElem? cid q a deck.cards i with heq | ⟨c', hc', hid, heq⟩
      · rw [heq, hc] at hc2
        exact Or.inl (Option.some_injective _ hc2).symm
      · rw [hc] at hc'
        cases Option.some_injective _ hc'
        rw [heq] at hc2
        exact Or.inr ⟨hid, (Option.some_injective _ hc2).symm⟩
    · rw [if_neg hany] at hc2
      dsimp only at hc2
      rw [hc] at hc2
      exact Or.inl (Option.some_injective _ hc2).symm
  have hnext : (cmd_edit deck cid q a).1.next_id = deck.next_id := by
    unfold cmd_edit
    split_ifs <;> rfl
  have hlen : (cmd_edit deck cid q a).1.cards.length = deck.cards.length := by
    unfold cmd_edit
    split_ifs <;> simp [editCards_length]
  refine ⟨hnext, hlen, cmd_edit_not_found deck cid q a, ?_⟩
  rcases hframe with rfl | ⟨hid, rfl⟩
  · exact ⟨rfl, rfl, rfl, rfl, rfl, rfl, rfl, fun _ => rfl,
      Or.inl rfl, Or.inl rfl⟩
  · obtain ⟨h1, h2, h3, h4, h5, h6, h7, h8, h9⟩ := applyEdit_frame q a c
    exact ⟨h1, h2, h3, h4, h5, h6, h7, fun hne => absurd hid hne, h8, h9⟩

theorem edit_frame_witness :
    (⟨2, [sampleCard]⟩ : Deck).cards[0]? = some sampleCard
    ∧ (cmd_edit ⟨2, [sampleCard]⟩ 1 (some "newq") none).1.cards[0]?
        = some (applyEdit (some "newq") none sampleCard)
    ∧ ((cmd_edit ⟨2, [sampleCard]⟩ 1 (some "newq") none).1.next_id
          = (⟨2, [sampleCard]⟩ : Deck).next_id
      ∧ (cmd_edit ⟨2, [sampleCard]⟩ 1 (some "newq") none).1.cards.length
          = (⟨2, [sampleCard]⟩ : Deck).cards.length
      ∧ ((∀ x ∈ (⟨2, [sampleCard]⟩ : Deck).cards, x.id ≠ 1) →
          cmd_edit ⟨2, [sampleCard]⟩ 1 (some "newq") none
            = (⟨2, [sampleCard]⟩, false))
      ∧ (applyEdit (some "newq") none sampleCard).id = sampleCard.id
      ∧ (applyEdit (some "newq") none sampleCard).repetitions
          = sampleCard.repetitions
      ∧ (applyEdit (some "newq") none sampleCard).interval = sampleCard.interval
      ∧ (applyEdit (some "newq") none sampleCard).ease = sampleCard.ease
      ∧ (applyEdit (some "newq") none sampleCard).due = sampleCard.due
      ∧ (applyEdit (some "newq") none sampleCard).created = sampleCard.created
      ∧ (applyEdit (some "newq") none sampleCard).last_review
          = sampleCard.last_review
      ∧ (sampleCard.id ≠ 1 →
          applyEdit (some "newq") none sampleCard = sampleCard)
      ∧ ((applyEdit (some "newq") none sampleCard).question
            = sampleCard.question
          ∨ ∃ s, (some "newq" : Option String) = some s ∧ s ≠ ""
              ∧ (applyEdit (some "newq") none sampleCard).question = s)
      ∧ ((applyEdit (some "newq") none sampleCard).answer = sampleCard.answer
          ∨ ∃ s, (none : Option String) = some s ∧ s ≠ ""
              ∧ (applyEdit (some "newq") none sampleCard).answer = s)) :=
  ⟨rfl, rfl,
    edit_frame ⟨2, [sampleCard]⟩ 1 (some "newq") none 0 sampleCard
      (applyEdit (some "newq") none sampleCard) rfl rfl⟩

/-- C9: deleting an id that is not in the deck returns the deck unchanged
with a not-found outcome, any sequence of deletes leaves next_id untouched,
and the card created by the next add receives exactly that running counter
as its id, so deletion never recycles ids. -/
theorem delete_not_found_fresh_ids (deck : Deck) (cid md : ℤ)
    (ids : List ℤ) (q a : String) (h : ∀ c ∈ deck.cards, c.id ≠ cid) :
    cmd_delete deck cid = (deck, false)
    ∧ (ids.foldl (fun d i => (cmd_delete d i).1) deck).next_id = deck.next_id
    ∧ (Deck.add md (ids.foldl (fun d i => (cmd_delete d i).1) deck) q a).2.id
        = deck.next_id := by
  have hpres : ∀ (l : List ℤ) (d : Deck),
      (l.foldl (fun d i => (cmd_delete d i).1) d).next_id = d.next_id := by
    intro l
    induction l with
    | nil => intro d; rfl
    | cons x xs ih => intro d; rw [List.foldl_cons, ih]; rfl
  have hfilter : deck.cards.filter (fun c => decide (c.id ≠ cid))
      = deck.cards :=
    List.filter_eq_self.mpr (fun c hc => by simpa using h c hc)
  refine ⟨?_, hpres ids deck, ?_⟩
  · unfold cmd_delete
    dsimp only
    rw [hfilter]
    simp
  · show (ids.foldl (fun d i => (cmd_delete d i).1) deck).next_id
        = deck.next_id
    exact hpres ids deck

theorem delete_not_found_fresh_ids_witness :
    (∀ c ∈ (⟨2, [sampleCard]⟩ : Deck).cards, c.id ≠ 99)
    ∧ (cmd_delete ⟨2, [sampleCard]⟩ 99 = (⟨2, [sampleCard]⟩, false)
      ∧ ([1, 99].foldl (fun d i => (cmd_delete d i).1)
            (⟨2, [sampleCard]⟩ : Deck)).next_id
          = (⟨2, [sampleCard]⟩ : Deck).next_id
      ∧ (Deck.add 0 ([1, 99].foldl (fun d i => (cmd_delete d i).1)
            (⟨2, [sampleCard]⟩ : Deck)) "x" "y").2.id
          = (⟨2, [sampleCard]⟩ : Deck).next_id) :=
  ⟨by decide,
    delete_not_found_fresh_ids ⟨2, [sampleCard]⟩ 99 0 [1, 99] "x" "y"
      (by decide)⟩

/-- A stored deck with a sparse card id and no next_id key. -/
def sparseRawDeck : RawDeck :=
  { next_id := none, cards := some [{ sampleRawCard with id := 5 }] }

/-- C10: when the persisted record lacks next_id, Deck.load succeeds and
defaults next_id to the number of loaded cards plus one; since that default
ignores the ids actually present, a stored deck with a sparse card id makes
the returned next_id no larger than an id already in the deck. -/
theorem load_missing_next_id (md : ℤ) (raw : RawDeck)
    (h : raw.next_id = none) :
    (Deck.load md raw).next_id = ((raw.cards.getD []).length : ℤ) + 1
    ∧ ∃ raw2 : RawDeck, raw2.next_id = none
        ∧ (∀ r ∈ raw2.cards.getD [], r.WellFormed)
        ∧ ∃ c ∈ (Deck.load md raw2).cards,
            (Deck.load md raw2).next_id ≤ c.id := by
  constructor
  · unfold Deck.load
    rw [h]
    simp
  · refine ⟨sparseRawDeck, rfl, ?_,
      loadCard md { sampleRawCard with id := 5 }, List.Mem.head _, ?_⟩
    · norm_num [RawCard.WellFormed, RawCard.Complete,
        sparseRawDeck, sampleRawCard]
    · show (Deck.load md sparseRawDeck).next_id
          ≤ (loadCard md { sampleRawCard with id := 5 }).id
      have h1 : (Deck.load md sparseRawDeck).next_id = 2 := by
        simp [Deck.load, sparseRawDeck]
      have h2 : (loadCard md { sampleRawCard with id := 5 }).id = 5 := rfl
      rw [h1, h2]
      norm_num

theorem load_missing_next_id_witness :
    sparseRawDeck.next_id = none
    ∧ ((Deck.load 0 sparseRawDeck).next_id
          = ((sparseRawDeck.cards.getD []).length : ℤ) + 1
      ∧ ∃ raw2 : RawDeck, raw2.next_id = none
          ∧ (∀ r ∈ raw2.cards.getD [], r.WellFormed)
          ∧ ∃ c ∈ (Deck.load 0 raw2).cards,
              (Deck.load 0 raw2).next_id ≤ c.id) :=
  ⟨rfl, load_missing_next_id 0 sparseRawDeck rfl⟩
